import Mathlib

/-
  Verification of the gin-contrib/cors middleware against its specification.

  The development shallowly embeds the Go sources:
  * `Config` and `Config.Validate` from cors.go;
  * the `cors` handler structure with `newCors`, `applyCors`, `validateOrigin`,
    `validateMethod`, `validateHeader`, `handlePreflight`, `handleNormal`,
    `generateNormalHeaders`, `generatePreflightHeaders` and its `normalize`
    (here `normalizeCanonical`) from the implementation file embedded in
    cors_test.go (lines 633-809);
  * `normalize` from utils.go.

  Go strings are modelled as lists of Unicode code points (`List Nat`); all
  data handled by the middleware is ASCII, where code points and bytes agree.
-/

namespace GinCors

/-- A Go string, as its list of code points. -/
abbrev GoString := List Nat

/-- Embed a Lean string literal as a `GoString`. -/
def gs (s : String) : GoString := s.data.map Char.toNat

/-- Model of Go `unicode.IsSpace` restricted to the Latin-1 range
(tab, newline, vertical tab, form feed, carriage return, space, NEL, NBSP).
The spacing characters above U+00FF never occur in the data handled here, and
no proof below depends on the extent of the space set. -/
def isSpaceByte (c : Nat) : Bool :=
  c == 32 || c == 9 || c == 10 || c == 11 || c == 12 || c == 13 || c == 133 || c == 160

/-- Drop leading white space, as in Go `strings.TrimLeft(s, whitespace)`. -/
def trimLeft (s : GoString) : GoString := s.dropWhile isSpaceByte

/-- Drop trailing white space. -/
def trimRight (s : GoString) : GoString := (trimLeft s.reverse).reverse

/-- Model of Go `strings.TrimSpace`. -/
def trimSpace (s : GoString) : GoString := trimRight (trimLeft s)

/-- ASCII lower-casing of one code point (model of Go `strings.ToLower`,
whose input here is ASCII). -/
def toLowerByte (c : Nat) : Nat := if 65 ≤ c ∧ c ≤ 90 then c + 32 else c

/-- Model of Go `strings.ToLower` on ASCII data. -/
def toLowerGo (s : GoString) : GoString := s.map toLowerByte

/-- Model of Go `strings.EqualFold` on ASCII data: case-insensitive equality. -/
def equalFold (a b : GoString) : Bool := toLowerGo a == toLowerGo b

/-- Model of Go `strings.HasPrefix`. -/
def goStartsWith (s pre : GoString) : Bool := pre.isPrefixOf s

/-- Model of Go `strings.HasSuffix`. -/
def goEndsWith (s suf : GoString) : Bool := suf.isSuffixOf s

/-- Model of Go `strings.Join`. -/
def goJoin (sep : GoString) (xs : List GoString) : GoString := List.intercalate sep xs

/-- The deduplicating loop shared by both versions of `normalize`: map `f`
over the entries, keeping only the first occurrence of each mapped value
(Go uses a `map[string]bool` of seen values; `seen` is that set). -/
def normalizeLoop (f : GoString → GoString) (seen : List GoString) :
    List GoString → List GoString
  | [] => []
  | v :: vs =>
    let w := f v
    if w ∈ seen then normalizeLoop f seen vs
    else w :: normalizeLoop f (w :: seen) vs

/-- Model of `normalize` from utils.go (lines 53-68): trim each entry, lower-case
it, and deduplicate preserving first-seen order.  Go distinguishes a nil slice
from an empty one; both are `[]` here (both normalize to themselves). -/
def normalize (values : List GoString) : List GoString :=
  normalizeLoop (fun v => toLowerGo (trimSpace v)) [] values

/-- Model of Go `net/textproto` `validHeaderFieldByte`: digits, letters, and
the token characters d3 ! # $ % & apostrophe * + - . ^ _ backtick | ~. -/
def validHeaderFieldByte (c : Nat) : Bool :=
  (48 ≤ c && c ≤ 57) || (65 ≤ c && c ≤ 90) || (97 ≤ c && c ≤ 122) ||
  c == 33 || c == 35 || c == 36 || c == 37 || c == 38 || c == 39 || c == 42 ||
  c == 43 || c == 45 || c == 46 || c == 94 || c == 95 || c == 96 || c == 124 || c == 126

/-- One step of the casing pass of `textproto.canonicalMIMEHeaderKey`:
upper-case a lower-case letter when `upper` is set, lower-case an upper-case
letter otherwise (the loop body of `canonicalMIMEHeaderKey`, named here so the
recursion below can refer to it). -/
def caseByte (upper : Bool) (c : Nat) : Nat :=
  if upper ∧ 97 ≤ c ∧ c ≤ 122 then c - 32
  else if ¬ upper ∧ 65 ≤ c ∧ c ≤ 90 then c + 32
  else c

/-- The casing pass of `textproto.canonicalMIMEHeaderKey`: upper-case a letter
at the start or after a hyphen (code 45), lower-case other letters; the
carried flag is recomputed from each written byte, as in the Go loop. -/
def canonicalCase (upper : Bool) : GoString → GoString
  | [] => []
  | c :: rest =>
    let d := caseByte upper c
    d :: canonicalCase (d == 45) rest

/-- Model of Go `textproto.CanonicalMIMEHeaderKey`: a string containing any
invalid header-field byte is returned unchanged, otherwise its casing is
canonicalized.  (The `commonHeader` interning table maps each canonical key to
an equal string, so it is elided.) -/
def canonicalMIMEHeaderKey (s : GoString) : GoString :=
  if s.all validHeaderFieldByte then canonicalCase true s else s

/-- Model of `normalize` from the implementation file embedded in cors_test.go
(lines 794-809): trim each entry, apply `textproto.CanonicalMIMEHeaderKey`,
and deduplicate preserving first-seen order.  Renamed from `normalize`, which
denotes the utils.go version above. -/
def normalizeCanonical (values : List GoString) : List GoString :=
  normalizeLoop (fun v => canonicalMIMEHeaderKey (trimSpace v)) [] values

/-- The configuration structure from cors.go (lines 11-46).  `MaxAge` is a Go
`time.Duration`, an `int64` count of nanoseconds.  `AllowOriginFunc` is `none`
when the Go field is nil. -/
structure Config where
  AbortOnError : Bool := false
  AllowAllOrigins : Bool := false
  AllowedOrigins : List GoString := []
  AllowOriginFunc : Option (GoString → Bool) := none
  AllowedMethods : List GoString := []
  AllowedHeaders : List GoString := []
  ExposedHeaders : List GoString := []
  AllowCredentials : Bool := false
  MaxAge : Int := 0

/-- `Config.Validate` from cors.go (lines 60-76).  `some msg` models returning
an error, `none` models returning nil.  The origin loop returns the same
message at the first offending entry, which equals testing whether any entry
lacks both accepted scheme markers. -/
def Config.Validate (c : Config) : Option String :=
  if c.AllowAllOrigins && (c.AllowOriginFunc.isSome || !c.AllowedOrigins.isEmpty) then
    some "conflict settings: all origins are allowed. AllowOriginFunc or AllowedOrigins is not needed"
  else if !c.AllowAllOrigins && c.AllowOriginFunc.isNone && c.AllowedOrigins.isEmpty then
    some "conflict settings: all origins disabled"
  else if c.AllowOriginFunc.isSome && !c.AllowedOrigins.isEmpty then
    some "conflict settings: if a allow origin func is provided, AllowedOrigins is not needed"
  else if c.AllowedOrigins.any
      (fun o => !goStartsWith o (gs "http://") && !goStartsWith o (gs "https://")) then
    some "bad origin: origins must include http:// or https://"
  else
    none

/-- An `http.Header`: a map from canonical header names to values.  The keys
written by this middleware are literal and already canonical, so the name is
kept as a Lean `String`; each value is the single Go string stored by
`Header.Set` (the middleware never appends a second value). -/
abbrev Header := List (String × GoString)

/-- Header lookup (`http.Header.Get`, restricted to present/absent). -/
def hget (h : Header) (k : String) : Option GoString :=
  (h.find? (fun p => p.1 == k)).map (fun p => p.2)

/-- Header update with overwrite semantics (`http.Header.Set`). -/
def hset (h : Header) (k : String) (v : GoString) : Header :=
  h.filter (fun p => p.1 != k) ++ [(k, v)]

/-- Copy every entry of `src` onto `dst`, overwriting existing keys: the
`for key, value := range headers` loops of `handlePreflight`/`handleNormal`. -/
def copyAll (src dst : Header) : Header :=
  src.foldl (fun h p => hset h p.1 p.2) dst

/-- `generateNormalHeaders` from the embedded implementation file
(cors_test.go lines 753-767). -/
def generateNormalHeaders (c : Config) : Header :=
  let h0 : Header := []
  let h1 := if c.AllowCredentials then
      hset h0 "Access-Control-Allow-Credentials" (gs "true") else h0
  let h2 := if !c.ExposedHeaders.isEmpty then
      hset h1 "Access-Control-Expose-Headers" (goJoin (gs ", ") c.ExposedHeaders) else h1
  if c.AllowAllOrigins then hset h2 "Access-Control-Allow-Origin" (gs "*")
  else hset h2 "Vary" (gs "Origin")

/-- Nanoseconds in a Go `time.Second`. -/
def goSecond : Int := 1000000000

/-- Model of Go `strconv.FormatInt(n, 10)`: the decimal string of `n`.
Go `/` on integers truncates toward zero, i.e. `Int.tdiv`. -/
def formatInt (n : Int) : GoString := gs (toString n)

/-- `generatePreflightHeaders` from the embedded implementation file
(cors_test.go lines 769-792); the `MaxAge` clause also appears verbatim in
utils.go (lines 41-44). -/
def generatePreflightHeaders (c : Config) : Header :=
  let h0 : Header := []
  let h1 := if c.AllowCredentials then
      hset h0 "Access-Control-Allow-Credentials" (gs "true") else h0
  let h2 := if !c.AllowedMethods.isEmpty then
      hset h1 "Access-Control-Allow-Methods" (goJoin (gs ", ") c.AllowedMethods) else h1
  let h3 := if !c.AllowedHeaders.isEmpty then
      hset h2 "Access-Control-Allow-Headers" (goJoin (gs ", ") c.AllowedHeaders) else h2
  let h4 := if 0 < c.MaxAge then
      hset h3 "Access-Control-Max-Age" (formatInt (c.MaxAge.tdiv goSecond)) else h3
  if c.AllowAllOrigins then hset h4 "Access-Control-Allow-Origin" (gs "*")
  else hset h4 "Vary" (gs "Origin")

/-- The compiled handler state (struct `cors`, cors_test.go lines 645-654). -/
structure cors where
  allowAllOrigins : Bool
  allowedOriginFunc : Option (GoString → Bool)
  allowedOrigins : List GoString
  allowedMethods : List GoString
  allowedHeaders : List GoString
  exposedHeaders : List GoString
  normalHeaders : Header
  preflightHeaders : Header
deriving Inhabited

/-- `newCors` (cors_test.go lines 656-669): validate, then build the handler;
a validation error makes the constructor panic, modelled as `Except.error`.
The `exposedHeaders` field is left at its zero value by the constructor. -/
def newCors (c : Config) : Except String cors :=
  match c.Validate with
  | some msg => .error msg
  | none => .ok
    { allowAllOrigins := c.AllowAllOrigins
      allowedOriginFunc := c.AllowOriginFunc
      allowedOrigins := normalizeCanonical c.AllowedOrigins
      allowedMethods := normalizeCanonical c.AllowedMethods
      allowedHeaders := normalizeCanonical c.AllowedHeaders
      exposedHeaders := []
      normalHeaders := generateNormalHeaders c
      preflightHeaders := generatePreflightHeaders c }

/-- The request data read by the handler.  Each header field holds the result
of `http.Header.Get`, which is the empty string when the header is absent. -/
structure Request where
  Method : GoString
  Origin : GoString
  RequestMethodHdr : GoString
  RequestHeaderHdr : GoString

/-- Modelled from the spec: the response collaborator of spec section 6 (the
`gin.Context` response side, which is not part of this repository).  It
exposes header set/overwrite and an operation to short-circuit the response
with a given status code while stopping downstream processing; `aborted` true
means the underlying route handler is not invoked. -/
structure Response where
  status : Option Nat
  headers : Header
  aborted : Bool
deriving Inhabited

/-- A fresh response: no status written, no headers, not aborted. -/
def Response.init : Response := { status := none, headers := [], aborted := false }

/-- Modelled from the spec: `AbortWithStatus` — short-circuit the response
with the given status code and stop downstream processing (spec section 6). -/
def abortWithStatus (res : Response) (code : Nat) : Response :=
  { res with status := some code, aborted := true }

/-- Set one response header (`c.Header` / direct header-map write). -/
def setRespHeader (res : Response) (k : String) (v : GoString) : Response :=
  { res with headers := hset res.headers k v }

/-- `cors.validateOrigin` (cors_test.go lines 699-712). -/
def cors.validateOrigin (s : cors) (origin : GoString) : Bool :=
  if s.allowAllOrigins then true
  else match s.allowedOriginFunc with
    | some f => f origin
    | none => s.allowedOrigins.any (fun v => v == origin)

/-- `cors.validateMethod` (cors_test.go lines 714-721). -/
def cors.validateMethod (s : cors) (method : GoString) : Bool :=
  s.allowedMethods.any (fun v => equalFold v method)

/-- `cors.validateHeader` (cors_test.go lines 723-730). -/
def cors.validateHeader (s : cors) (header : GoString) : Bool :=
  s.allowedHeaders.any (fun v => equalFold v header)

/-- `cors.handlePreflight` (cors_test.go lines 732-744): abort with status
200, then validate the requested method and the `Access-Control-Request-Header`
value (singular, as in the source); only on success copy the precomputed
preflight headers.  Returns the Go function's boolean with the response. -/
def cors.handlePreflight (s : cors) (req : Request) (res : Response) : Bool × Response :=
  let res1 := abortWithStatus res 200
  if ¬ s.validateMethod req.RequestMethodHdr then (false, res1)
  else if ¬ s.validateHeader req.RequestHeaderHdr then (false, res1)
  else (true, { res1 with headers := copyAll s.preflightHeaders res1.headers })

/-- `cors.handleNormal` (cors_test.go lines 746-751). -/
def cors.handleNormal (s : cors) (res : Response) : Bool × Response :=
  (true, { res with headers := copyAll s.normalHeaders res.headers })

/-- `cors.applyCors` (cors_test.go lines 671-697).  The `goto failed` target
aborts with the HTTP forbidden status 403. -/
def cors.applyCors (s : cors) (req : Request) (res : Response) : Response :=
  if req.Origin.isEmpty then res
  else if ¬ s.validateOrigin req.Origin then abortWithStatus res 403
  else
    let step := if req.Method == gs "OPTIONS" then s.handlePreflight req res
                else s.handleNormal res
    if ¬ step.1 then abortWithStatus step.2 403
    else if s.allowAllOrigins then
      setRespHeader step.2 "Access-Control-Allow-Origin" (gs "*")
    else
      setRespHeader step.2 "Access-Control-Allow-Origin" req.Origin

/-- Modelled from the spec: the wildcard origin rules of spec section 4.2 step
5 — the implementation holding the wildcard parser and matcher is not among
the source files (only its unit tests appear in cors_test.go).  A pattern with
no `*` yields no rule, a pattern with exactly one `*` splits into the
(prefix, suffix) pair around it, and more than one `*` is a configuration
error (code 42 is `*`). -/
def splitWildcardPattern (pattern : GoString) : Except String (Option (GoString × GoString)) :=
  if pattern.count 42 = 0 then .ok none
  else if pattern.count 42 = 1 then
    .ok (some (pattern.takeWhile (fun c => c != 42),
               (pattern.dropWhile (fun c => c != 42)).drop 1))
  else .error "origins with a wildcard must contain exactly one wildcard token"

/-- Modelled from the spec: a candidate origin matches a wildcard rule iff it
starts with the rule's prefix, ends with its suffix, and is at least as long
as both combined (spec section 4.2 step 5). -/
def wildcardRuleMatch (rule : GoString × GoString) (origin : GoString) : Bool :=
  goStartsWith origin rule.1 && goEndsWith origin rule.2 &&
    decide (rule.1.length + rule.2.length ≤ origin.length)

/-! Concrete instances used by witnesses and counterexamples. -/

/-- The configuration of the spec's preflight scenario (spec section 8), with
the allowed header needed for the request below to pass the header check. -/
def cfg1 : Config :=
  { AllowedOrigins := [gs "http://google.com"]
    AllowedMethods := [gs "GET", gs "POST", gs "PUT", gs "HEAD"]
    AllowedHeaders := [gs "Content-Type"] }

/-- The handler compiled from `cfg1`. -/
def s1 : cors := (newCors cfg1).toOption.getD default

/-- The preflight request of the spec's preflight scenario. -/
def req1 : Request :=
  { Method := gs "OPTIONS", Origin := gs "http://google.com"
    RequestMethodHdr := gs "GET", RequestHeaderHdr := gs "Content-Type" }

/-- A simple request from an origin `cfg1` does not allow. -/
def req2 : Request :=
  { Method := gs "GET", Origin := gs "https://google.com"
    RequestMethodHdr := gs "", RequestHeaderHdr := gs "" }

/-- A request carrying no Origin header. -/
def req9 : Request :=
  { Method := gs "GET", Origin := [], RequestMethodHdr := gs "", RequestHeaderHdr := gs "" }

/-- An allow-all configuration and its handler. -/
def cfgAll : Config := { AllowAllOrigins := true }

/-- The handler compiled from `cfgAll`. -/
def sAll : cors := (newCors cfgAll).toOption.getD default

/-- A valid configuration whose single origin entry carries trailing white
space, so that normalization changes it. -/
def cfg5 : Config := { AllowedOrigins := [gs "https://google.com "] }

/-- The handler compiled from `cfg5`. -/
def s5 : cors := (newCors cfg5).toOption.getD default

/-! Basic facts about the header map model. -/

/-- The keys of a header map, pairwise distinct. -/
def NodupKeys (h : Header) : Prop := (h.map Prod.fst).Nodup

theorem hget_hset_self (h : Header) (k : String) (v : GoString) :
    hget (hset h k v) k = some v := by
  induction h with
  | nil => simp [hget, hset]
  | cons p t ih =>
    by_cases hp : p.1 = k
    · simpa [hget, hset, hp] using ih
    · simpa [hget, hset, List.filter_cons, List.find?_cons, hp] using ih

theorem hget_hset_ne (h : Header) (k : String) (v : GoString) (k' : String)
    (hne : k' ≠ k) : hget (hset h k v) k' = hget h k' := by
  induction h with
  | nil =>
    have hkk : (k == k') = false := by
      simp only [beq_eq_false_iff_ne, ne_eq]
      exact Ne.symm hne
    simp [hget, hset, List.find?, hkk]
  | cons p t ih =>
    by_cases hp : p.1 = k
    · have e1 : hset (p :: t) k v = hset t k v := by
        simp [hset, List.filter_cons, hp]
      have hpk : ¬ p.1 = k' := by rw [hp]; exact Ne.symm hne
      rw [e1, ih]
      simp [hget, List.find?_cons, hpk]
    · have e1 : hset (p :: t) k v = p :: hset t k v := by
        simp [hset, List.filter_cons, hp]
      rw [e1]
      by_cases hp' : p.1 = k'
      · simp [hget, List.find?_cons, hp']
      · simp only [hget, List.find?_cons, show (p.1 == k') = false by simp [hp']]
        exact ih

theorem nodupKeys_nil : NodupKeys ([] : Header) := by simp [NodupKeys]

theorem nodupKeys_hset (h : Header) (k : String) (v : GoString)
    (hn : NodupKeys h) : NodupKeys (hset h k v) := by
  unfold NodupKeys hset
  rw [List.map_append]
  refine List.Nodup.append ?_ (by simp) ?_
  · exact ((List.filter_sublist h).map Prod.fst).nodup hn
  · intro a ha hb
    simp at hb
    subst hb
    rcases List.mem_map.1 ha with ⟨q, hq, hq1⟩
    rcases List.mem_filter.1 hq with ⟨_, hq2⟩
    simp at hq2
    exact hq2 hq1

theorem copyAll_cons (p : String × GoString) (t dst : Header) :
    copyAll (p :: t) dst = copyAll t (hset dst p.1 p.2) := rfl

theorem hget_copyAll_not_mem (src : Header) :
    ∀ (dst : Header) (k : String), (∀ p ∈ src, p.1 ≠ k) →
      hget (copyAll src dst) k = hget dst k := by
  induction src with
  | nil => intro dst k _; rfl
  | cons p t ih =>
    intro dst k hk
    rw [copyAll_cons, ih _ _ (fun q hq => hk q (List.mem_cons_of_mem _ hq)),
      hget_hset_ne _ _ _ _ (fun hh => hk p (List.mem_cons_self _ _) hh.symm)]

theorem hget_copyAll_of_get (src : Header) :
    ∀ (dst : Header) (k : String) (v : GoString), NodupKeys src →
      hget src k = some v → hget (copyAll src dst) k = some v := by
  induction src with
  | nil => intro dst k v _ hv; simp [hget] at hv
  | cons p t ih =>
    intro dst k v hnd hv
    rw [copyAll_cons]
    by_cases hp : p.1 = k
    · have hv' : v = p.2 := by simp [hget, List.find?_cons, hp] at hv; exact hv.symm
      have hkt : ∀ q ∈ t, q.1 ≠ k := by
        intro q hq hqk
        have : p.1 ∈ t.map Prod.fst := hp ▸ hqk ▸ List.mem_map_of_mem Prod.fst hq
        exact (List.nodup_cons.1 hnd).1 this
      rw [hget_copyAll_not_mem _ _ _ hkt]
      subst hp
      subst hv'
      exact hget_hset_self dst p.1 p.2
    · have hv' : hget t k = some v := by
        simpa [hget, List.find?_cons, hp] using hv
      exact ih _ _ _ (List.nodup_cons.1 hnd).2 hv'

theorem nodupKeys_generatePreflightHeaders (c : Config) :
    NodupKeys (generatePreflightHeaders c) := by
  simp only [generatePreflightHeaders]
  repeat' split
  all_goals repeat (first | apply nodupKeys_hset | exact nodupKeys_nil)

theorem nodupKeys_generateNormalHeaders (c : Config) :
    NodupKeys (generateNormalHeaders c) := by
  simp only [generateNormalHeaders]
  repeat' split
  all_goals repeat (first | apply nodupKeys_hset | exact nodupKeys_nil)

/-- Unfolding a successful `newCors`: the compiled handler is exactly the
record built from the configuration. -/
theorem newCors_ok {c : Config} {s : cors} (h : newCors c = .ok s) :
    s = { allowAllOrigins := c.AllowAllOrigins
          allowedOriginFunc := c.AllowOriginFunc
          allowedOrigins := normalizeCanonical c.AllowedOrigins
          allowedMethods := normalizeCanonical c.AllowedMethods
          allowedHeaders := normalizeCanonical c.AllowedHeaders
          exposedHeaders := []
          normalHeaders := generateNormalHeaders c
          preflightHeaders := generatePreflightHeaders c } := by
  unfold newCors at h
  cases hv : c.Validate with
  | some m => rw [hv] at h; exact absurd h (by simp)
  | none => rw [hv] at h; cases h; rfl

/-- A configuration whose `Validate` errs can never yield a handler. -/
theorem newCors_fails_of_validate {c : Config} (h : c.Validate.isSome = true) :
    ∀ s : cors, newCors c ≠ .ok s := by
  intro s hs
  unfold newCors at hs
  cases hv : c.Validate with
  | some m => rw [hv] at hs; simp at hs
  | none => rw [hv] at h; simp at h

/-! The claim theorems. -/

/-- C2: for every request, whenever a validation step fails — the origin is
not allowed, or, on a preflight (OPTIONS) request, the requested method or the
requested header is not allowed — `applyCors` leaves the response headers
untouched (no CORS headers attached), records the HTTP forbidden status 403,
and aborts so that the underlying route handler is never invoked. -/
theorem validation_failure_aborts_forbidden (s : cors) (req : Request) (res : Response)
    (ho : req.Origin ≠ [])
    (h : s.validateOrigin req.Origin = false ∨
         (req.Method = gs "OPTIONS" ∧ s.validateOrigin req.Origin = true ∧
           (s.validateMethod req.RequestMethodHdr = false ∨
            (s.validateMethod req.RequestMethodHdr = true ∧
             s.validateHeader req.RequestHeaderHdr = false)))) :
    s.applyCors req res = { res with status := some 403, aborted := true } := by
  have ho' : req.Origin.isEmpty = false := by
    cases hOr : req.Origin with
    | nil => exact absurd hOr ho
    | cons a t => rfl
  rcases h with hfail | ⟨hm, hok, hrest⟩
  · simp [cors.applyCors, ho', hfail, abortWithStatus]
  · rcases hrest with hvm | ⟨hvm, hvh⟩
    · simp [cors.applyCors, ho', hok, hm, cors.handlePreflight, hvm, abortWithStatus]
    · simp [cors.applyCors, ho', hok, hm, cors.handlePreflight, hvm, hvh, abortWithStatus]

/-- C2 witness: the handler of `cfg1` forbids a simple request from the
disallowed origin `https://google.com`. -/
theorem validation_failure_witness :
    s1.applyCors req2 Response.init =
      { Response.init with status := some 403, aborted := true } :=
  validation_failure_aborts_forbidden s1 req2 Response.init (by decide)
    (Or.inl (by decide))

/-- C4: with `allowAllOrigins` set, `validateOrigin` accepts every non-empty
origin, regardless of its scheme or shape. -/
theorem allow_all_validates_any_origin (s : cors) (origin : GoString)
    (hall : s.allowAllOrigins = true) (hne : origin ≠ []) :
    s.validateOrigin origin = true := by
  simp [cors.validateOrigin, hall]

/-- C4 witness: the allow-all handler accepts the schemeless origin
`example.com`. -/
theorem allow_all_validates_any_origin_witness :
    sAll.validateOrigin (gs "example.com") = true :=
  allow_all_validates_any_origin sAll (gs "example.com") (by decide) (by decide)

/-- C9: a request without an Origin header passes through untouched: the
response (headers, status, abort flag) is returned exactly as it was, so no
CORS header is added and the request proceeds to the route handler. -/
theorem no_origin_passthrough (s : cors) (req : Request) (res : Response)
    (h : req.Origin = []) : s.applyCors req res = res := by
  simp [cors.applyCors, h]

/-- C9 witness: the `cfg1` handler passes a request without Origin through. -/
theorem no_origin_passthrough_witness :
    s1.applyCors req9 Response.init = Response.init :=
  no_origin_passthrough s1 req9 Response.init rfl

/-- C3: `Validate` errs — and so `newCors` fails — whenever the origin
strategies are not exactly one of allow-all, predicate, or non-empty list:
allow-all combined with a predicate or a non-empty list, a predicate combined
with a non-empty list, or no strategy at all. -/
theorem validate_rejects_conflicting_strategies (c : Config)
    (h : (c.AllowAllOrigins = true ∧
            (c.AllowOriginFunc.isSome = true ∨ c.AllowedOrigins ≠ [])) ∨
         (c.AllowOriginFunc.isSome = true ∧ c.AllowedOrigins ≠ []) ∨
         (c.AllowAllOrigins = false ∧ c.AllowOriginFunc = none ∧
            c.AllowedOrigins = [])) :
    c.Validate.isSome = true ∧ ∀ s : cors, newCors c ≠ .ok s := by
  have hv : c.Validate.isSome = true := by
    unfold Config.Validate
    split
    · simp
    · split
      · simp
      · split
        · simp
        · split
          · simp
          · rename_i h1 h2 h3 h4
            exfalso
            rcases h with ⟨a1, a2⟩ | ⟨a1, a2⟩ | ⟨a1, a2, a3⟩
            · exact h1 (by simp [a1]; rcases a2 with b | b <;> simp [b])
            · exact h3 (by simp [a1, a2])
            · exact h2 (by simp [a1, a2, a3])
  exact ⟨hv, newCors_fails_of_validate hv⟩

/-- The empty configuration: no origin strategy at all. -/
def cfg3 : Config := {}

/-- A configuration whose only origin entry is an unscoped bare host. -/
def cfg6 : Config := { AllowedOrigins := [gs "google.com"] }

/-- C3 witness: the empty configuration (no strategy at all) is rejected. -/
theorem validate_rejects_conflicting_strategies_witness :
    cfg3.Validate.isSome = true :=
  (validate_rejects_conflicting_strategies cfg3 (Or.inr (Or.inr ⟨rfl, rfl, rfl⟩))).1

/-- C6: a literal origin entry that starts with neither `http://` nor
`https://` makes `Validate` err, so `newCors` fails before any request is
served. -/
theorem validate_rejects_bad_scheme (c : Config) (o : GoString)
    (ho : o ∈ c.AllowedOrigins)
    (h1 : goStartsWith o (gs "http://") = false)
    (h2 : goStartsWith o (gs "https://") = false) :
    c.Validate.isSome = true ∧ ∀ s : cors, newCors c ≠ .ok s := by
  have hv : c.Validate.isSome = true := by
    unfold Config.Validate
    split
    · simp
    · split
      · simp
      · split
        · simp
        · split
          · simp
          · rename_i hany
            exfalso
            exact hany (List.any_eq_true.2 ⟨o, ho, by simp [h1, h2]⟩)
  exact ⟨hv, newCors_fails_of_validate hv⟩

/-- C6 witness: the bare-host entry `google.com` is rejected. -/
theorem validate_rejects_bad_scheme_witness :
    cfg6.Validate.isSome = true :=
  (validate_rejects_bad_scheme cfg6
    (gs "google.com") (by decide) (by decide) (by decide)).1

/-- C1 counterexample: in the spec's own preflight scenario every success
condition holds, yet the status short-circuited by the handler is 200 (OK),
not the no-content status 204 the claim announces. -/
theorem preflight_status_not_no_content :
    newCors cfg1 = .ok s1 ∧
    s1.validateOrigin req1.Origin = true ∧
    s1.validateMethod req1.RequestMethodHdr = true ∧
    s1.validateHeader req1.RequestHeaderHdr = true ∧
    (s1.applyCors req1 Response.init).status = some 200 ∧
    (s1.applyCors req1 Response.init).status ≠ some 204 :=
  ⟨rfl, by decide, by decide, by decide, by decide, by decide⟩

/-- C1 (amended): for a handler built by `newCors`, an OPTIONS request whose
origin, requested method and requested header all validate is short-circuited
with status 200 (OK, not a no-content status) without reaching the route
handler; every precomputed preflight header is copied onto the response, and
`Access-Control-Allow-Origin` is `*` under allow-all and the literal request
origin otherwise. -/
theorem preflight_success (c : Config) (s : cors) (req : Request) (res : Response)
    (hs : newCors c = .ok s)
    (hm : req.Method = gs "OPTIONS")
    (ho : req.Origin ≠ [])
    (hvo : s.validateOrigin req.Origin = true)
    (hvm : s.validateMethod req.RequestMethodHdr = true)
    (hvh : s.validateHeader req.RequestHeaderHdr = true) :
    (s.applyCors req res).aborted = true ∧
    (s.applyCors req res).status = some 200 ∧
    (∀ k v, k ≠ "Access-Control-Allow-Origin" →
        hget s.preflightHeaders k = some v →
        hget (s.applyCors req res).headers k = some v) ∧
    hget (s.applyCors req res).headers "Access-Control-Allow-Origin" =
      some (if s.allowAllOrigins then gs "*" else req.Origin) := by
  have ho' : req.Origin.isEmpty = false := by
    cases hOr : req.Origin with
    | nil => exact absurd hOr ho
    | cons a t => rfl
  have hnd : NodupKeys s.preflightHeaders := by
    rw [newCors_ok hs]
    exact nodupKeys_generatePreflightHeaders c
  have happ : s.applyCors req res =
      setRespHeader
        { res with status := some 200, aborted := true,
                   headers := copyAll s.preflightHeaders res.headers }
        "Access-Control-Allow-Origin"
        (if s.allowAllOrigins then gs "*" else req.Origin) := by
    cases hall : s.allowAllOrigins with
    | true =>
      simp [cors.applyCors, ho', hvo, hm, cors.handlePreflight, hvm, hvh, hall,
        abortWithStatus]
    | false =>
      simp [cors.applyCors, ho', hvo, hm, cors.handlePreflight, hvm, hvh, hall,
        abortWithStatus]
  rw [happ]
  refine ⟨rfl, rfl, ?_, ?_⟩
  · intro k v hk hv
    show hget (hset (copyAll s.preflightHeaders res.headers)
      "Access-Control-Allow-Origin" _) k = some v
    rw [hget_hset_ne _ _ _ _ hk]
    exact hget_copyAll_of_get s.preflightHeaders res.headers k v hnd hv
  · exact hget_hset_self _ _ _

/-- C1 witness: the amended theorem applied to the spec's preflight scenario. -/
theorem preflight_success_witness :
    (s1.applyCors req1 Response.init).aborted = true ∧
    (s1.applyCors req1 Response.init).status = some 200 ∧
    hget (s1.applyCors req1 Response.init).headers "Access-Control-Allow-Origin" =
      some (if s1.allowAllOrigins then gs "*" else req1.Origin) := by
  have h := preflight_success cfg1 s1 req1 Response.init rfl rfl (by decide)
    (by decide) (by decide) (by decide)
  exact ⟨h.1, h.2.1, h.2.2.2⟩

/-- C5 counterexample: `cfg5` is valid, its compiled handler has no origin
predicate, and `validateOrigin` accepts `https://google.com`, which is not an
exact member of the configured origin list (the configured entry carries a
trailing space that normalization removed). -/
theorem origin_list_match_not_exact_literal :
    newCors cfg5 = .ok s5 ∧
    cfg5.AllowOriginFunc = none ∧
    s5.validateOrigin (gs "https://google.com") = true ∧
    gs "https://google.com" ∉ cfg5.AllowedOrigins :=
  ⟨rfl, rfl, by decide, by decide⟩

/-- C5 (amended): with allow-all off, `validateOrigin` returns exactly the
configured predicate's result when one is present; otherwise it returns true
iff the origin is an exact, case-sensitive member of the normalized (trimmed,
MIME-canonicalized) configured origin list, and false when nothing matches. -/
theorem validateOrigin_branches (c : Config) (s : cors)
    (hs : newCors c = .ok s) (hall : c.AllowAllOrigins = false) :
    (∀ f o, c.AllowOriginFunc = some f → s.validateOrigin o = f o) ∧
    (c.AllowOriginFunc = none →
      ∀ o, s.validateOrigin o = true ↔ o ∈ normalizeCanonical c.AllowedOrigins) := by
  have hrec := newCors_ok hs
  subst hrec
  constructor
  · intro f o hf
    simp [cors.validateOrigin, hall, hf]
  · intro hf o
    simp [cors.validateOrigin, hall, hf, List.any_eq_true]

/-- C5 witness: the amended theorem applied to `cfg5`. -/
theorem validateOrigin_branches_witness :
    s5.validateOrigin (gs "https://google.com") = true ↔
      gs "https://google.com" ∈ normalizeCanonical cfg5.AllowedOrigins :=
  (validateOrigin_branches cfg5 s5 rfl rfl).2 rfl (gs "https://google.com")

/-- Look-ups through a conditional `hset` at a different key are transparent. -/
theorem hget_ite_hset_ne {p : Prop} [Decidable p] (h : Header) (k : String)
    (v : GoString) (k' : String) (hne : k' ≠ k) :
    hget (if p then hset h k v else h) k' = hget h k' := by
  split
  · exact hget_hset_ne h k v k' hne
  · rfl

/-- The Max-Age entry of the preflight header set, in closed form. -/
theorem hget_max_age (c : Config) :
    hget (generatePreflightHeaders c) "Access-Control-Max-Age" =
      if 0 < c.MaxAge then some (formatInt (c.MaxAge.tdiv goSecond)) else none := by
  simp only [generatePreflightHeaders]
  have e : ∀ h4 : Header,
      hget (if c.AllowAllOrigins then
              hset h4 "Access-Control-Allow-Origin" (gs "*")
            else hset h4 "Vary" (gs "Origin")) "Access-Control-Max-Age" =
        hget h4 "Access-Control-Max-Age" := by
    intro h4
    split
    · exact hget_hset_ne _ _ _ _ (by decide)
    · exact hget_hset_ne _ _ _ _ (by decide)
  rw [e]
  split
  · exact hget_hset_self _ _ _
  · rw [hget_ite_hset_ne _ _ _ _ (by decide),
      hget_ite_hset_ne _ _ _ _ (by decide),
      hget_ite_hset_ne _ _ _ _ (by decide)]
    rfl

/-- C10: with `MaxAge > 0` the preflight headers carry `Access-Control-Max-Age`
equal to the decimal string of MaxAge divided by one second with truncating
division — in particular any MaxAge strictly between 0 and one second yields
the string `0` — and with `MaxAge <= 0` the header is absent. -/
theorem max_age_header (c : Config) :
    (0 < c.MaxAge →
      hget (generatePreflightHeaders c) "Access-Control-Max-Age" =
        some (formatInt (c.MaxAge.tdiv goSecond))) ∧
    (0 < c.MaxAge → c.MaxAge < goSecond →
      hget (generatePreflightHeaders c) "Access-Control-Max-Age" = some (gs "0")) ∧
    (c.MaxAge ≤ 0 →
      hget (generatePreflightHeaders c) "Access-Control-Max-Age" = none) := by
  have h := hget_max_age c
  refine ⟨fun hp => ?_, fun hp hlt => ?_, fun hn => ?_⟩
  · rw [h, if_pos hp]
  · rw [h, if_pos hp]
    have hz : c.MaxAge.tdiv goSecond = 0 := by
      obtain ⟨m, hm⟩ := Int.eq_ofNat_of_zero_le (le_of_lt hp)
      rw [hm]
      have hmn : m < 1000000000 := by
        rw [hm] at hlt
        simp only [goSecond] at hlt
        omega
      show Int.ofNat (m / 1000000000) = 0
      rw [Nat.div_eq_of_lt hmn]
      rfl
    rw [hz]
    decide
  · rw [h, if_neg (by omega)]

/-- C10 witness: a half-second MaxAge yields the header value `0`, and the
12-hour MaxAge of the repository's tests yields `43200`. -/
theorem max_age_header_witness :
    hget (generatePreflightHeaders { MaxAge := 500000000 }) "Access-Control-Max-Age" =
        some (gs "0") ∧
    hget (generatePreflightHeaders { MaxAge := 0 }) "Access-Control-Max-Age" = none :=
  ⟨(max_age_header { MaxAge := 500000000 }).2.1 (by decide) (by decide),
   (max_age_header { MaxAge := 0 }).2.2 (by decide)⟩

/-! Wildcard rules (spec-modelled, claim C7). -/

/-- `takeWhile` up to the marker code 42 recovers the part before it. -/
theorem takeWhile_append_star (p s : GoString) (hp : (42 : Nat) ∉ p) :
    (p ++ 42 :: s).takeWhile (fun c => c != 42) = p := by
  induction p with
  | nil => simp [List.takeWhile]
  | cons a t ih =>
    have ha : a ≠ 42 := fun h => hp (h ▸ List.mem_cons_self a t)
    simp only [List.cons_append, List.takeWhile_cons]
    rw [if_pos (by simp [ha]), ih (fun h => hp (List.mem_cons_of_mem a h))]

/-- `dropWhile` up to the marker code 42 recovers the marker and the rest. -/
theorem dropWhile_append_star (p s : GoString) (hp : (42 : Nat) ∉ p) :
    (p ++ 42 :: s).dropWhile (fun c => c != 42) = 42 :: s := by
  induction p with
  | nil => simp [List.dropWhile]
  | cons a t ih =>
    have ha : a ≠ 42 := fun h => hp (h ▸ List.mem_cons_self a t)
    simp only [List.cons_append, List.dropWhile_cons]
    rw [if_pos (by simp [ha]), ih (fun h => hp (List.mem_cons_of_mem a h))]

/-- A pattern with a single `*` splits into the parts before and after it. -/
theorem splitWildcard_of_single (p s : GoString)
    (hp : (42 : Nat) ∉ p) (hs : (42 : Nat) ∉ s) :
    splitWildcardPattern (p ++ 42 :: s) = .ok (some (p, s)) := by
  have hc : (p ++ 42 :: s).count 42 = 1 := by
    rw [List.count_append]
    rw [List.count_eq_zero.2 hp, List.count_cons_self, List.count_eq_zero.2 hs]
  unfold splitWildcardPattern
  rw [hc, takeWhile_append_star p s hp, dropWhile_append_star p s hp]
  rfl

/-- The wildcard match predicate unfolded to a proposition. -/
theorem wildcardRuleMatch_iff (r : GoString × GoString) (o : GoString) :
    wildcardRuleMatch r o = true ↔
      (r.1 <+: o ∧ r.2 <:+ o ∧ r.1.length + r.2.length ≤ o.length) := by
  simp [wildcardRuleMatch, goStartsWith, goEndsWith, Bool.and_eq_true,
    List.isPrefixOf_iff_prefix, List.isSuffixOf_iff_suffix, and_assoc]

/-- C7: (spec-modelled) a pattern with a single `*` splits into the (prefix,
suffix) pair around it; an origin matches a rule iff it starts with the
prefix, ends with the suffix, and is at least as long as both combined; the
spec's examples behave as announced, and a pattern with two `*` tokens is a
configuration error at parse time. -/
theorem wildcard_matching :
    (∀ p s, (42 : Nat) ∉ p → (42 : Nat) ∉ s →
        splitWildcardPattern (p ++ 42 :: s) = .ok (some (p, s))) ∧
    (∀ r o, wildcardRuleMatch r o = true ↔
        (r.1 <+: o ∧ r.2 <:+ o ∧ r.1.length + r.2.length ≤ o.length)) ∧
    splitWildcardPattern (gs "http://*.example.com") =
      .ok (some (gs "http://", gs ".example.com")) ∧
    wildcardRuleMatch (gs "http://", gs ".example.com")
      (gs "http://api.example.com") = true ∧
    wildcardRuleMatch (gs "http://", gs ".example.com")
      (gs "http://example.com") = false ∧
    splitWildcardPattern (gs "*.golang.org") =
      .ok (some (gs "", gs ".golang.org")) ∧
    wildcardRuleMatch (gs "", gs ".golang.org")
      (gs "https://something.golang.org") = true ∧
    splitWildcardPattern (gs "http://*.*.com") =
      .error "origins with a wildcard must contain exactly one wildcard token" :=
  ⟨splitWildcard_of_single, wildcardRuleMatch_iff, rfl, by decide,
   by decide, rfl, by decide, rfl⟩

/-- C7 witness: the splitting law applied to the spec's example pattern. -/
theorem wildcard_matching_witness :
    splitWildcardPattern (gs "http://" ++ 42 :: gs ".example.com") =
      .ok (some (gs "http://", gs ".example.com")) :=
  wildcard_matching.1 (gs "http://") (gs ".example.com") (by decide) (by decide)

/-! Idempotence of normalization (claim C8). -/

theorem toLowerByte_idem (c : Nat) : toLowerByte (toLowerByte c) = toLowerByte c := by
  unfold toLowerByte
  by_cases h : 65 ≤ c ∧ c ≤ 90
  · rw [if_pos h, if_neg (by omega)]
  · rw [if_neg h, if_neg h]

theorem isSpaceByte_toLowerByte (c : Nat) :
    isSpaceByte (toLowerByte c) = isSpaceByte c := by
  unfold toLowerByte
  by_cases h : 65 ≤ c ∧ c ≤ 90
  · rw [if_pos h]
    have h1 : isSpaceByte (c + 32) = false := by simp [isSpaceByte]; omega
    have h2 : isSpaceByte c = false := by simp [isSpaceByte]; omega
    rw [h1, h2]
  · rw [if_neg h]

theorem dropWhile_idem (p : Nat → Bool) (l : GoString) :
    (l.dropWhile p).dropWhile p = l.dropWhile p := by
  induction l with
  | nil => rfl
  | cons a t ih =>
    by_cases h : p a
    · simp [List.dropWhile_cons, h, ih]
    · simp [List.dropWhile_cons, h]

theorem head_dropWhile_false (p : Nat → Bool) (l : GoString) (a : Nat)
    (h : (l.dropWhile p).head? = some a) : p a = false := by
  induction l with
  | nil => simp [List.dropWhile] at h
  | cons b t ih =>
    by_cases hb : p b
    · rw [List.dropWhile_cons, if_pos hb] at h
      exact ih h
    · rw [List.dropWhile_cons, if_neg hb] at h
      have hba : b = a := by simpa using h
      subst hba
      simpa using hb

theorem dropWhile_eq_self_of_all (p : Nat → Bool) (l : GoString)
    (h : ∀ a ∈ l, p a = false) : l.dropWhile p = l := by
  cases l with
  | nil => rfl
  | cons a t => simp [List.dropWhile_cons, h a (List.mem_cons_self a t)]

theorem trimLeft_eq_self_of_head (l : GoString)
    (h : ∀ a, l.head? = some a → isSpaceByte a = false) : trimLeft l = l := by
  cases l with
  | nil => rfl
  | cons a t =>
    have := h a rfl
    simp [trimLeft, List.dropWhile_cons, this]

theorem trimRight_prefix (l : GoString) : trimRight l <+: l := by
  unfold trimRight trimLeft
  have hs : l.reverse.dropWhile isSpaceByte <:+ l.reverse :=
    List.dropWhile_suffix _
  have h2 :=
    (@List.reverse_prefix Nat (l.reverse.dropWhile isSpaceByte) l.reverse).2 hs
  simpa using h2

theorem prefix_head (l₁ l₂ : GoString) (h : l₁ <+: l₂) (hne : l₁ ≠ []) :
    l₂.head? = l₁.head? := by
  obtain ⟨t, rfl⟩ := h
  cases l₁ with
  | nil => exact absurd rfl hne
  | cons a u => rfl

theorem trimSpace_idem (l : GoString) : trimSpace (trimSpace l) = trimSpace l := by
  have h1 : trimLeft (trimSpace l) = trimSpace l := by
    rcases hv : trimSpace l with _ | ⟨a, t⟩
    · rfl
    · apply trimLeft_eq_self_of_head
      intro b hb
      have hpre : trimRight (trimLeft l) <+: trimLeft l := trimRight_prefix _
      have hne : trimSpace l ≠ [] := by rw [hv]; simp
      have hh : (trimLeft l).head? = (trimSpace l).head? := prefix_head _ _ hpre hne
      apply head_dropWhile_false isSpaceByte l b
      show (trimLeft l).head? = some b
      rw [hh, hv]
      exact hb
  have h2 : trimRight (trimSpace l) = trimSpace l := by
    show trimRight (trimRight (trimLeft l)) = trimRight (trimLeft l)
    unfold trimRight trimLeft
    rw [List.reverse_reverse, dropWhile_idem]
  show trimRight (trimLeft (trimSpace l)) = trimSpace l
  rw [h1, h2]

theorem trimSpace_toLowerGo (l : GoString) :
    trimSpace (toLowerGo l) = toLowerGo (trimSpace l) := by
  have hdw : ∀ m : GoString,
      (m.map toLowerByte).dropWhile isSpaceByte =
        (m.dropWhile isSpaceByte).map toLowerByte := by
    intro m
    induction m with
    | nil => rfl
    | cons a t ih =>
      by_cases h : isSpaceByte a = true
      · have h' : isSpaceByte (toLowerByte a) = true := by
          rw [isSpaceByte_toLowerByte]; exact h
        simp [List.dropWhile_cons, h, h', ih]
      · have h' : isSpaceByte (toLowerByte a) = false := by
          rw [isSpaceByte_toLowerByte]; simpa using h
        simp [List.dropWhile_cons, h, h']
  show trimRight (trimLeft (toLowerGo l)) = toLowerGo (trimRight (trimLeft l))
  unfold trimRight trimLeft toLowerGo
  rw [hdw, ← List.map_reverse, hdw, List.map_reverse]

theorem normf_idem (v : GoString) :
    toLowerGo (trimSpace (toLowerGo (trimSpace v))) = toLowerGo (trimSpace v) := by
  rw [trimSpace_toLowerGo, trimSpace_idem]
  unfold toLowerGo
  rw [List.map_map]
  exact List.map_congr_left (fun a _ => toLowerByte_idem a)

theorem normalizeLoop_cons (f : GoString → GoString) (seen : List GoString)
    (v : GoString) (vs : List GoString) :
    normalizeLoop f seen (v :: vs) =
      if f v ∈ seen then normalizeLoop f seen vs
      else f v :: normalizeLoop f (f v :: seen) vs := rfl

theorem mem_normalizeLoop (f : GoString → GoString) (l : List GoString) :
    ∀ (seen : List GoString) (y : GoString),
      y ∈ normalizeLoop f seen l → ∃ v ∈ l, y = f v := by
  induction l with
  | nil => intro seen y hy; simp [normalizeLoop] at hy
  | cons v vs ih =>
    intro seen y hy
    rw [normalizeLoop_cons] at hy
    by_cases hw : f v ∈ seen
    · rw [if_pos hw] at hy
      obtain ⟨u, hu, hyu⟩ := ih seen y hy
      exact ⟨u, List.mem_cons_of_mem _ hu, hyu⟩
    · rw [if_neg hw] at hy
      rcases List.mem_cons.1 hy with h | h
      · exact ⟨v, List.mem_cons_self _ _, h⟩
      · obtain ⟨u, hu, hyu⟩ := ih _ y h
        exact ⟨u, List.mem_cons_of_mem _ hu, hyu⟩

theorem normalizeLoop_not_mem_seen (f : GoString → GoString) (l : List GoString) :
    ∀ (seen : List GoString) (y : GoString),
      y ∈ normalizeLoop f seen l → y ∉ seen := by
  induction l with
  | nil => intro seen y hy; simp [normalizeLoop] at hy
  | cons v vs ih =>
    intro seen y hy
    rw [normalizeLoop_cons] at hy
    by_cases hw : f v ∈ seen
    · rw [if_pos hw] at hy
      exact ih seen y hy
    · rw [if_neg hw] at hy
      rcases List.mem_cons.1 hy with h | h
      · exact h ▸ hw
      · intro hseen
        exact ih _ y h (List.mem_cons_of_mem _ hseen)

theorem nodup_normalizeLoop (f : GoString → GoString) (l : List GoString) :
    ∀ seen : List GoString, (normalizeLoop f seen l).Nodup := by
  induction l with
  | nil => intro seen; simp [normalizeLoop]
  | cons v vs ih =>
    intro seen
    rw [normalizeLoop_cons]
    by_cases hw : f v ∈ seen
    · rw [if_pos hw]; exact ih seen
    · rw [if_neg hw]
      refine List.nodup_cons.2 ⟨?_, ih _⟩
      intro hmem
      exact normalizeLoop_not_mem_seen f vs _ _ hmem (List.mem_cons_self _ _)

theorem normalizeLoop_fixed (f : GoString → GoString) (l : List GoString) :
    ∀ seen : List GoString, (∀ y ∈ l, f y = y) → l.Nodup →
      (∀ y ∈ l, y ∉ seen) → normalizeLoop f seen l = l := by
  induction l with
  | nil => intro seen _ _ _; rfl
  | cons v vs ih =>
    intro seen hfix hnd hdisj
    rw [normalizeLoop_cons]
    have hv : f v = v := hfix v (List.mem_cons_self _ _)
    have hnotin : f v ∉ seen := by
      rw [hv]
      exact hdisj v (List.mem_cons_self _ _)
    rw [if_neg hnotin, hv]
    congr 1
    apply ih
    · exact fun y hy => hfix y (List.mem_cons_of_mem _ hy)
    · exact (List.nodup_cons.1 hnd).2
    · intro y hy hmem
      rcases List.mem_cons.1 hmem with h | h
      · exact (List.nodup_cons.1 hnd).1 (h ▸ hy)
      · exact hdisj y (List.mem_cons_of_mem _ hy) h

theorem normalize_idem (x : List GoString) :
    normalize (normalize x) = normalize x := by
  unfold normalize
  apply normalizeLoop_fixed
  · intro y hy
    obtain ⟨v, _, rfl⟩ := mem_normalizeLoop _ _ _ _ hy
    exact normf_idem v
  · exact nodup_normalizeLoop _ _ _
  · intro y _
    exact List.not_mem_nil y

theorem caseByte_fixed (u : Bool) (c : Nat) :
    caseByte u (caseByte u c) = caseByte u c := by
  unfold caseByte
  by_cases h1 : u = true ∧ 97 ≤ c ∧ c ≤ 122
  · rw [if_pos h1, if_neg (by rintro ⟨-, hl, hr⟩; omega),
      if_neg (by rintro ⟨hnu, -, -⟩; exact hnu h1.1)]
  · rw [if_neg h1]
    by_cases h2 : ¬ u = true ∧ 65 ≤ c ∧ c ≤ 90
    · rw [if_pos h2, if_neg (by rintro ⟨hu, -, -⟩; exact h2.1 hu),
        if_neg (by rintro ⟨-, hl, hr⟩; omega)]
    · rw [if_neg h2, if_neg h1, if_neg h2]

theorem caseByte_valid (u : Bool) (c : Nat)
    (h : validHeaderFieldByte c = true) :
    validHeaderFieldByte (caseByte u c) = true := by
  unfold caseByte
  by_cases h1 : u = true ∧ 97 ≤ c ∧ c ≤ 122
  · rw [if_pos h1]
    simp [validHeaderFieldByte]
    omega
  · rw [if_neg h1]
    by_cases h2 : ¬ u = true ∧ 65 ≤ c ∧ c ≤ 90
    · rw [if_pos h2]
      simp [validHeaderFieldByte]
      omega
    · rw [if_neg h2]
      exact h

theorem valid_not_space (c : Nat) (h : validHeaderFieldByte c = true) :
    isSpaceByte c = false := by
  simp [validHeaderFieldByte] at h
  simp [isSpaceByte]
  omega

theorem canonicalCase_cons (u : Bool) (c : Nat) (rest : GoString) :
    canonicalCase u (c :: rest) =
      caseByte u c :: canonicalCase (caseByte u c == 45) rest := rfl

theorem canonicalCase_all_valid (l : GoString) :
    ∀ u : Bool, l.all validHeaderFieldByte = true →
      (canonicalCase u l).all validHeaderFieldByte = true := by
  induction l with
  | nil => intro u _; rfl
  | cons c t ih =>
    intro u h
    rw [List.all_cons] at h
    rw [canonicalCase_cons, List.all_cons]
    rw [Bool.and_eq_true] at h ⊢
    exact ⟨caseByte_valid u c h.1, ih _ h.2⟩

theorem canonicalCase_idem (l : GoString) :
    ∀ u : Bool, canonicalCase u (canonicalCase u l) = canonicalCase u l := by
  induction l with
  | nil => intro u; rfl
  | cons c t ih =>
    intro u
    rw [canonicalCase_cons, canonicalCase_cons, caseByte_fixed, ih]

theorem trimSpace_eq_self_of_no_space (l : GoString)
    (h : ∀ a ∈ l, isSpaceByte a = false) : trimSpace l = l := by
  show trimRight (trimLeft l) = l
  unfold trimRight trimLeft
  rw [dropWhile_eq_self_of_all _ _ h,
    dropWhile_eq_self_of_all _ _ (fun a ha => h a (List.mem_reverse.1 ha))]
  exact List.reverse_reverse l

theorem canonf_idem (v : GoString) :
    canonicalMIMEHeaderKey (trimSpace (canonicalMIMEHeaderKey (trimSpace v))) =
      canonicalMIMEHeaderKey (trimSpace v) := by
  have hty : trimSpace (trimSpace v) = trimSpace v := trimSpace_idem v
  by_cases hv : (trimSpace v).all validHeaderFieldByte = true
  · have hz : canonicalMIMEHeaderKey (trimSpace v) =
        canonicalCase true (trimSpace v) := by
      rw [canonicalMIMEHeaderKey, if_pos hv]
    rw [hz]
    have hzvalid : (canonicalCase true (trimSpace v)).all validHeaderFieldByte = true :=
      canonicalCase_all_valid _ true hv
    have hzns : ∀ a ∈ canonicalCase true (trimSpace v), isSpaceByte a = false :=
      fun a ha => valid_not_space a (List.all_eq_true.1 hzvalid a ha)
    rw [trimSpace_eq_self_of_no_space _ hzns, canonicalMIMEHeaderKey, if_pos hzvalid]
    exact canonicalCase_idem _ true
  · have hz : canonicalMIMEHeaderKey (trimSpace v) = trimSpace v := by
      rw [canonicalMIMEHeaderKey, if_neg hv]
    rw [hz, hty, hz]

theorem normalizeCanonical_idem (x : List GoString) :
    normalizeCanonical (normalizeCanonical x) = normalizeCanonical x := by
  unfold normalizeCanonical
  apply normalizeLoop_fixed
  · intro y hy
    obtain ⟨v, _, rfl⟩ := mem_normalizeLoop _ _ _ _ hy
    exact canonf_idem v
  · exact nodup_normalizeLoop _ _ _
  · intro y _
    exact List.not_mem_nil y

/-- C8: both `normalize` implementations trim, apply their canonical casing
transform, and deduplicate preserving first-seen order; each is idempotent,
and the behaviour on the spec's example (case-fold, drop the duplicate, keep
first-seen order) and on the repository's own test vector is as announced. -/
theorem normalize_idempotent :
    (∀ x, normalize (normalize x) = normalize x) ∧
    (∀ x, normalizeCanonical (normalizeCanonical x) = normalizeCanonical x) ∧
    normalize [gs "A", gs "a", gs "B"] = [gs "a", gs "b"] ∧
    normalize [gs "http-Access ", gs "Post", gs "POST", gs " poSt  ",
      gs "HTTP-Access", gs ""] = [gs "http-access", gs "post", gs ""] :=
  ⟨normalize_idem, normalizeCanonical_idem, by decide, by decide⟩

/-- C8 witness: idempotence applied to the spec's example list. -/
theorem normalize_idempotent_witness :
    normalize (normalize [gs "A", gs "a", gs "B"]) =
      normalize [gs "A", gs "a", gs "B"] :=
  normalize_idempotent.1 [gs "A", gs "a", gs "B"]

end GinCors
